import Mathlib

/-!
Shallow embedding of the sirena-types library (src/lib.rs): four
fixed-length code types (AircraftCode, AirlineCode, AirportCode,
CityCode) that validate a text against an uppercase-Cyrillic/digit
character convention and store the KOI8-R re-encoding of the text as a
fixed-size byte array.

Modelling conventions:
* A Rust string slice is a `List Char` (Rust iterates Unicode scalar
  values; `chars().count()` is `List.length`, and `len()` is the
  UTF-8 byte length, modelled by `utf8Len`).
* The KOI8-R codec (from the external crate encoding_rs) is modelled on
  the byte and character ranges reachable from validated values: ASCII
  maps to itself, and the 32 uppercase Cyrillic letters А..Я map to
  bytes 0xE0..0xFF in KOI8-R order (RFC 1489). Encoding any other
  character is modelled as `none` (the real codec would emit a
  multi-byte numeric character reference, making the subsequent
  fixed-size copy panic) and decoding any other byte as U+FFFD; neither
  case is reachable through the validated constructors.
* Each `from_str` returns `Option (Except Err Code)`: `none` models a
  panic (the `copy_from_slice` length-mismatch abort), and `some` is the
  Rust `Result`.
* Each `from_bytes_unchecked` returns `none` exactly when its
  `copy_from_slice` would panic, i.e. on a slice of the wrong length.
-/

namespace Sirena

/-- Rust `c.is_ascii_digit()`: scalar value between 0x30 and 0x39. -/
def isAsciiDigit (c : Char) : Bool :=
  decide (0x30 ≤ c.toNat) && decide (c.toNat ≤ 0x39)

/-- The Rust range test `c >= 'А' && c <= 'Я'` (Cyrillic А is U+0410 and
Я is U+042F): scalar value between 0x410 and 0x42F. -/
def cyrUpper (c : Char) : Bool :=
  decide (0x410 ≤ c.toNat) && decide (c.toNat ≤ 0x42F)

/-- Per-character test of the `AircraftCode::from_str` loop (lib.rs
line 74): ASCII digit or Cyrillic А..Я. -/
def aircraftOk (c : Char) : Bool := isAsciiDigit c || cyrUpper c

/-- Per-character test of the `AirportCode::from_str` loop (lib.rs
line 205): only Cyrillic А..Я; digits are not accepted. -/
def airportOk (c : Char) : Bool := cyrUpper c

/-- Per-character test of the `CityCode::from_str` loop (lib.rs
line 265): only Cyrillic А..Я; digits are not accepted. -/
def cityOk (c : Char) : Bool := cyrUpper c

/-- Characters the `AirlineCode::from_str` loop lets through, letters or
digits (lib.rs lines 137-141). -/
def airlineOk (c : Char) : Bool := cyrUpper c || isAsciiDigit c

/-- UTF-8 byte count of a string, Rust `value.len()`. -/
def utf8Len (s : List Char) : Nat := (s.map Char.utf8Size).sum

/-- KOI8-R code table for the uppercase Cyrillic letters (RFC 1489):
byte 0xE0..0xFF paired with the Unicode character it denotes. -/
def koi8UpperTable : List (Nat × Char) :=
  [(0xE0, 'Ю'), (0xE1, 'А'), (0xE2, 'Б'), (0xE3, 'Ц'), (0xE4, 'Д'),
   (0xE5, 'Е'), (0xE6, 'Ф'), (0xE7, 'Г'), (0xE8, 'Х'), (0xE9, 'И'),
   (0xEA, 'Й'), (0xEB, 'К'), (0xEC, 'Л'), (0xED, 'М'), (0xEE, 'Н'),
   (0xEF, 'О'), (0xF0, 'П'), (0xF1, 'Я'), (0xF2, 'Р'), (0xF3, 'С'),
   (0xF4, 'Т'), (0xF5, 'У'), (0xF6, 'Ж'), (0xF7, 'В'), (0xF8, 'Ь'),
   (0xF9, 'Ы'), (0xFA, 'З'), (0xFB, 'Ш'), (0xFC, 'Э'), (0xFD, 'Щ'),
   (0xFE, 'Ч'), (0xFF, 'Ъ')]

/-- KOI8-R encoding of one character (`KOI8_R.encode`, restricted to
the characters reachable after validation): ASCII passes through, the
designated Cyrillic letters use `koi8UpperTable`, everything else is
`none`. -/
def koi8EncodeChar (c : Char) : Option Nat :=
  if c.toNat < 0x80 then some c.toNat
  else Option.map Prod.fst (koi8UpperTable.find? (fun p => p.2 == c))

/-- KOI8-R decoding of one byte (`KOI8_R.decode`, restricted to the
bytes reachable from validated values). -/
def koi8DecodeByte (b : Nat) : Char :=
  if b < 0x80 then Char.ofNat b
  else
    match koi8UpperTable.find? (fun p => p.1 == b) with
    | some p => p.2
    | none => Char.ofNat 0xFFFD

/-- The `KOI8_R.encode(value)` call over a whole string: one byte per
character, `none` if some character has no single-byte image. -/
def encodeAll : List Char → Option (List Nat)
  | [] => some []
  | c :: cs =>
    match koi8EncodeChar c, encodeAll cs with
    | some b, some bs => some (b :: bs)
    | _, _ => none

/-- The validation loop shared by the aircraft, airport and city
parsers: return the first character failing the per-character test, or
`none` when all pass. -/
def firstReject (accept : Char → Bool) : List Char → Option Char
  | [] => none
  | c :: cs => if accept c then firstReject accept cs else some c

/-- Number of ASCII digit characters in a string. -/
def digitCount (s : List Char) : Nat := (s.filter isAsciiDigit).length

/-- Lexicographic comparison of byte lists: the derived `Ord` of the
Rust wrapper structs over their fixed-size byte arrays. -/
def lexNat : List Nat → List Nat → Ordering
  | [], [] => Ordering.eq
  | [], _ :: _ => Ordering.lt
  | _ :: _, [] => Ordering.gt
  | a :: as, b :: bs =>
    match compare a b with
    | Ordering.eq => lexNat as bs
    | o => o

/-- Rust string comparison: lexicographic on Unicode scalar values
(equivalently on UTF-8 bytes). -/
def charsCompare (s1 s2 : List Char) : Ordering :=
  lexNat (s1.map Char.toNat) (s2.map Char.toNat)

/-- A deterministic function of the stored bytes, standing for the
derived `Hash` implementation (which feeds exactly the byte array to
the hasher, so equal byte arrays hash equally). -/
def hashBytes (bs : List Nat) : Nat := bs.foldl (fun h b => h * 257 + b) 7

/-- The ten ASCII digit characters. -/
def digitChars : List Char := ['0', '1', '2', '3', '4', '5', '6', '7', '8', '9']

/-- The 32 characters of the accepted Cyrillic range А..Я, in Unicode
order; Ё (U+0401) is outside the range. -/
def designatedLetters : List Char :=
  ['А', 'Б', 'В', 'Г', 'Д', 'Е', 'Ж', 'З', 'И', 'Й', 'К', 'Л', 'М', 'Н',
   'О', 'П', 'Р', 'С', 'Т', 'У', 'Ф', 'Х', 'Ц', 'Ч', 'Ш', 'Щ', 'Ъ', 'Ы',
   'Ь', 'Э', 'Ю', 'Я']

/-- All characters any of the four validators can accept. -/
def acceptedChars : List Char := digitChars ++ designatedLetters

/-- Error type of `AircraftCode::from_str`. -/
inductive AircraftCodeParseError where
  | InvalidLength (len : Nat)
  | InvalidLetter (c : Char)
deriving DecidableEq

/-- Rust `AircraftCode([u8; 3])`. -/
structure AircraftCode where
  bytes : List Nat
deriving DecidableEq

/-- Rust `AircraftCode::as_str`: KOI8-R decode of the stored bytes. -/
def AircraftCode.as_str (v : AircraftCode) : List Char :=
  v.bytes.map koi8DecodeByte

/-- Rust `AircraftCode::as_bytes`. -/
def AircraftCode.as_bytes (v : AircraftCode) : List Nat := v.bytes

/-- Rust `AircraftCode::from_str` (lib.rs lines 69-84). -/
def AircraftCode.from_str (value : List Char) :
    Option (Except AircraftCodeParseError AircraftCode) :=
  if value.length ≠ 3 then
    some (Except.error (AircraftCodeParseError.InvalidLength (utf8Len value)))
  else
    match firstReject aircraftOk value with
    | some c => some (Except.error (AircraftCodeParseError.InvalidLetter c))
    | none =>
      match encodeAll value with
      | some koi8str =>
        if koi8str.length = 3 then some (Except.ok ⟨koi8str⟩) else none
      | none => none

/-- Error type of `AirlineCode::from_str`. -/
inductive AirlineCodeParseError where
  | InvalidLength (len : Nat)
  | InvalidLetter (c : Char)
  | TooManyDigits (digits : Nat)
deriving DecidableEq

/-- Rust `AirlineCode([u8; 2])`. -/
structure AirlineCode where
  bytes : List Nat
deriving DecidableEq

/-- Rust `AirlineCode::as_str`. -/
def AirlineCode.as_str (v : AirlineCode) : List Char :=
  v.bytes.map koi8DecodeByte

/-- Rust `AirlineCode::as_bytes`. -/
def AirlineCode.as_bytes (v : AirlineCode) : List Nat := v.bytes

/-- Rust `AirlineCode::from_bytes_unchecked`: copies the slice into a
2-byte array; `copy_from_slice` panics (`none`) unless the slice has
length 2. -/
def AirlineCode.from_bytes_unchecked (bytes : List Nat) : Option AirlineCode :=
  if bytes.length = 2 then some ⟨bytes⟩ else none

/-- The character loop of `AirlineCode::from_str` (lib.rs lines
135-145): accepts letters, counts digits, rejects anything else. -/
def airlineScan : List Char → Nat → Except AirlineCodeParseError Nat
  | [], digits => Except.ok digits
  | c :: cs, digits =>
    if cyrUpper c then airlineScan cs digits
    else if isAsciiDigit c then airlineScan cs (digits + 1)
    else Except.error (AirlineCodeParseError.InvalidLetter c)

/-- Rust `AirlineCode::from_str` (lib.rs lines 131-155). -/
def AirlineCode.from_str (value : List Char) :
    Option (Except AirlineCodeParseError AirlineCode) :=
  if value.length ≠ 2 then
    some (Except.error (AirlineCodeParseError.InvalidLength (utf8Len value)))
  else
    match airlineScan value 0 with
    | Except.error e => some (Except.error e)
    | Except.ok digits =>
      if digits > 1 then
        some (Except.error (AirlineCodeParseError.TooManyDigits digits))
      else
        match encodeAll value with
        | some koi8str =>
          if koi8str.length = 2 then some (Except.ok ⟨koi8str⟩) else none
        | none => none

/-- Error type of `AirportCode::from_str`. -/
inductive AirportCodeParseError where
  | InvalidLength (len : Nat)
  | InvalidLetter (c : Char)
deriving DecidableEq

/-- Rust `AirportCode([u8; 3])`. -/
structure AirportCode where
  bytes : List Nat
deriving DecidableEq

/-- Rust `AirportCode::as_str`. -/
def AirportCode.as_str (v : AirportCode) : List Char :=
  v.bytes.map koi8DecodeByte

/-- Rust `AirportCode::as_bytes`. -/
def AirportCode.as_bytes (v : AirportCode) : List Nat := v.bytes

/-- Rust `AirportCode::from_bytes_unchecked`: panics (`none`) unless the
slice has length 3. -/
def AirportCode.from_bytes_unchecked (bytes : List Nat) : Option AirportCode :=
  if bytes.length = 3 then some ⟨bytes⟩ else none

/-- Rust `AirportCode::from_str` (lib.rs lines 200-215). -/
def AirportCode.from_str (value : List Char) :
    Option (Except AirportCodeParseError AirportCode) :=
  if value.length ≠ 3 then
    some (Except.error (AirportCodeParseError.InvalidLength (utf8Len value)))
  else
    match firstReject airportOk value with
    | some c => some (Except.error (AirportCodeParseError.InvalidLetter c))
    | none =>
      match encodeAll value with
      | some koi8str =>
        if koi8str.length = 3 then some (Except.ok ⟨koi8str⟩) else none
      | none => none

/-- Error type of `CityCode::from_str`. -/
inductive CityCodeParseError where
  | InvalidLength (len : Nat)
  | InvalidLetter (c : Char)
deriving DecidableEq

/-- Rust `CityCode([u8; 3])`. -/
structure CityCode where
  bytes : List Nat
deriving DecidableEq

/-- Rust `CityCode::as_str`. -/
def CityCode.as_str (v : CityCode) : List Char :=
  v.bytes.map koi8DecodeByte

/-- Rust `CityCode::as_bytes`. -/
def CityCode.as_bytes (v : CityCode) : List Nat := v.bytes

/-- Rust `CityCode::from_bytes_unchecked`: panics (`none`) unless the slice
has length 3. -/
def CityCode.from_bytes_unchecked (bytes : List Nat) : Option CityCode :=
  if bytes.length = 3 then some ⟨bytes⟩ else none

/-- Rust `CityCode::from_str` (lib.rs lines 260-275). -/
def CityCode.from_str (value : List Char) :
    Option (Except CityCodeParseError CityCode) :=
  if value.length ≠ 3 then
    some (Except.error (CityCodeParseError.InvalidLength (utf8Len value)))
  else
    match firstReject cityOk value with
    | some c => some (Except.error (CityCodeParseError.InvalidLetter c))
    | none =>
      match encodeAll value with
      | some koi8str =>
        if koi8str.length = 3 then some (Except.ok ⟨koi8str⟩) else none
      | none => none

example : CityCode.from_str ['М', 'О'] =
    some (Except.error (CityCodeParseError.InvalidLength 4)) := rfl

example : AircraftCode.from_str ['П', 'У', '1'] =
    some (Except.ok ⟨[0xF0, 0xF5, 0x31]⟩) := rfl

example : AirportCode.from_str ['A', 'A', 'A'] =
    some (Except.error (AirportCodeParseError.InvalidLetter 'A')) := rfl

example : AirlineCode.from_str ['5', '6'] =
    some (Except.error (AirlineCodeParseError.TooManyDigits 2)) := rfl

example : AirlineCode.from_str ['А', '5'] =
    some (Except.ok ⟨[0xE1, 0x35]⟩) := rfl

example : AirportCode.from_str ['А', 'Б', '1'] =
    some (Except.error (AirportCodeParseError.InvalidLetter '1')) := rfl

example : (AircraftCode.mk [0xF0, 0xF5, 0x31]).as_str = ['П', 'У', '1'] := rfl

/-- Unfolding of `isAsciiDigit` to scalar-value bounds. -/
theorem isAsciiDigit_iff {c : Char} :
    isAsciiDigit c = true ↔ 0x30 ≤ c.toNat ∧ c.toNat ≤ 0x39 := by
  simp [isAsciiDigit]

/-- Unfolding of `cyrUpper` to scalar-value bounds. -/
theorem cyrUpper_iff {c : Char} :
    cyrUpper c = true ↔ 0x410 ≤ c.toNat ∧ c.toNat ≤ 0x42F := by
  simp [cyrUpper]

/-- The digit range and the Cyrillic range are disjoint. -/
theorem cyr_not_digit {c : Char} (h : cyrUpper c = true) :
    isAsciiDigit c = false := by
  rcases cyrUpper_iff.mp h with ⟨h1, h2⟩
  cases hd : isAsciiDigit c
  · rfl
  · rcases isAsciiDigit_iff.mp hd with ⟨d1, d2⟩
    omega

/-- A character is determined by its scalar value. -/
theorem char_toNat_inj {a b : Char} (h : a.toNat = b.toNat) : a = b :=
  Char.ext (UInt32.toNat.inj h)

/-- Membership in a character list follows from membership of the
scalar value in the mapped list. -/
theorem mem_of_toNat_mem {c : Char} :
    ∀ {L : List Char}, c.toNat ∈ L.map Char.toNat → c ∈ L := by
  intro L
  induction L with
  | nil => simp
  | cons a as ih =>
    intro h
    rw [List.map_cons, List.mem_cons] at h
    rcases h with h | h
    · rw [char_toNat_inj h]
      exact List.mem_cons_self _ _
    · exact List.mem_cons_of_mem _ (ih h)

/-- Every character of the Cyrillic range is in `designatedLetters`. -/
theorem cyr_mem_designated {c : Char} (h : cyrUpper c = true) :
    c ∈ designatedLetters := by
  rcases cyrUpper_iff.mp h with ⟨h1, h2⟩
  apply mem_of_toNat_mem
  have hmap : designatedLetters.map Char.toNat =
      [0x410, 0x411, 0x412, 0x413, 0x414, 0x415, 0x416, 0x417, 0x418,
       0x419, 0x41A, 0x41B, 0x41C, 0x41D, 0x41E, 0x41F, 0x420, 0x421,
       0x422, 0x423, 0x424, 0x425, 0x426, 0x427, 0x428, 0x429, 0x42A,
       0x42B, 0x42C, 0x42D, 0x42E, 0x42F] := rfl
  rw [hmap]
  simp only [List.mem_cons, List.not_mem_nil, or_false]
  omega

/-- Every ASCII digit character is in `digitChars`. -/
theorem digit_mem_digitChars {c : Char} (h : isAsciiDigit c = true) :
    c ∈ digitChars := by
  rcases isAsciiDigit_iff.mp h with ⟨h1, h2⟩
  apply mem_of_toNat_mem
  have hmap : digitChars.map Char.toNat =
      [0x30, 0x31, 0x32, 0x33, 0x34, 0x35, 0x36, 0x37, 0x38, 0x39] := rfl
  rw [hmap]
  simp only [List.mem_cons, List.not_mem_nil, or_false]
  omega

/-- Characters passing any of the per-kind tests are in `acceptedChars`. -/
theorem airlineOk_mem_accepted {c : Char} (h : airlineOk c = true) :
    c ∈ acceptedChars := by
  rcases Bool.or_eq_true_iff.mp h with h | h
  · exact List.mem_append_right _ (cyr_mem_designated h)
  · exact List.mem_append_left _ (digit_mem_digitChars h)

theorem aircraftOk_mem_accepted {c : Char} (h : aircraftOk c = true) :
    c ∈ acceptedChars := by
  rcases Bool.or_eq_true_iff.mp h with h | h
  · exact List.mem_append_left _ (digit_mem_digitChars h)
  · exact List.mem_append_right _ (cyr_mem_designated h)

theorem cyr_mem_accepted {c : Char} (h : cyrUpper c = true) :
    c ∈ acceptedChars :=
  List.mem_append_right _ (cyr_mem_designated h)

/-- Every accepted character has a single-byte KOI8-R image that
decodes back to it. -/
theorem enc_dec_accepted {c : Char} (h : c ∈ acceptedChars) :
    ∃ b, koi8EncodeChar c = some b ∧ koi8DecodeByte b = c := by
  fin_cases h <;> exact ⟨_, rfl, rfl⟩

/-- Encoding a fully-accepted string yields one byte per character and
decodes back to the original string. -/
theorem encodeAll_some {s : List Char} (h : ∀ c ∈ s, c ∈ acceptedChars) :
    ∃ bs, encodeAll s = some bs ∧ bs.length = s.length ∧
      bs.map koi8DecodeByte = s := by
  induction s with
  | nil => exact ⟨[], rfl, rfl, rfl⟩
  | cons c cs ih =>
    obtain ⟨b, hb, hdec⟩ := enc_dec_accepted (h c (List.mem_cons_self _ _))
    obtain ⟨bs, hbs, hlen, hmap⟩ :=
      ih (fun x hx => h x (List.mem_cons_of_mem _ hx))
    refine ⟨b :: bs, ?_, by simp [hlen], by simp [hmap, hdec]⟩
    simp [encodeAll, hb, hbs]

/-- The bytes produced by a successful encode of a fully-accepted
string decode back to that string. -/
theorem encodeAll_decode {s : List Char} {bs : List Nat}
    (hacc : ∀ c ∈ s, c ∈ acceptedChars) (henc : encodeAll s = some bs) :
    bs.map koi8DecodeByte = s ∧ bs.length = s.length := by
  obtain ⟨bs0, h0, hlen, hmap⟩ := encodeAll_some hacc
  rw [henc] at h0
  cases h0
  exact ⟨hmap, hlen⟩

/-- The validation loop accepts the whole string exactly when every
character passes the test. -/
theorem firstReject_eq_none {accept : Char → Bool} {s : List Char} :
    firstReject accept s = none ↔ ∀ c ∈ s, accept c = true := by
  induction s with
  | nil => simp [firstReject]
  | cons c cs ih =>
    by_cases h : accept c = true <;> simp [firstReject, h, ih]

/-- A rejected character splits the string: everything before it passed
the test, and it fails the test. -/
theorem firstReject_some_split {accept : Char → Bool} :
    ∀ {s : List Char} {c : Char}, firstReject accept s = some c →
      ∃ pre post, s = pre ++ c :: post ∧ (∀ x ∈ pre, accept x = true) ∧
        accept c = false := by
  intro s
  induction s with
  | nil => intro c h; simp [firstReject] at h
  | cons a as ih =>
    intro c h
    by_cases ha : accept a = true
    · rw [firstReject, if_pos ha] at h
      obtain ⟨pre, post, heq, hpre, hc⟩ := ih h
      refine ⟨a :: pre, post, by rw [heq, List.cons_append], ?_, hc⟩
      intro x hx
      rcases List.mem_cons.mp hx with rfl | hx
      · exact ha
      · exact hpre x hx
    · rw [firstReject, if_neg ha] at h
      cases h
      exact ⟨[], as, rfl, by simp, by simpa using ha⟩

/-- Unfolding of `digitCount` over a cons cell. -/
theorem digitCount_cons {c : Char} {cs : List Char} :
    digitCount (c :: cs) =
      (if isAsciiDigit c = true then 1 else 0) + digitCount cs := by
  by_cases h : isAsciiDigit c = true <;>
    simp [digitCount, List.filter_cons, h, Nat.add_comm]

/-- The airline loop on a fully-valid string returns the digit count
added to the accumulator. -/
theorem airlineScan_ok {s : List Char} (h : ∀ c ∈ s, airlineOk c = true) :
    ∀ d, airlineScan s d = Except.ok (d + digitCount s) := by
  induction s with
  | nil => intro d; simp [airlineScan, digitCount]
  | cons c cs ih =>
    intro d
    have hc := h c (List.mem_cons_self _ _)
    have hrest := fun x hx => h x (List.mem_cons_of_mem _ hx)
    rcases Bool.or_eq_true_iff.mp hc with hcyr | hdig
    · rw [airlineScan, if_pos hcyr, ih hrest, digitCount_cons,
        if_neg (by simp [cyr_not_digit hcyr])]
      simp
    · by_cases hcyr : cyrUpper c = true
      · rw [airlineScan, if_pos hcyr, ih hrest, digitCount_cons,
          if_neg (by simp [cyr_not_digit hcyr])]
        simp
      · rw [airlineScan, if_neg hcyr, if_pos hdig, ih hrest,
          digitCount_cons, if_pos hdig]
        congr 1
        omega

/-- Inversion of a successful airline loop: every character was valid
and the result is the accumulator plus the digit count. -/
theorem airlineScan_ok_inv :
    ∀ {s : List Char} {d n : Nat}, airlineScan s d = Except.ok n →
      (∀ c ∈ s, airlineOk c = true) ∧ n = d + digitCount s := by
  intro s
  induction s with
  | nil =>
    intro d n h
    rw [airlineScan] at h
    cases h
    exact ⟨by simp, by simp [digitCount]⟩
  | cons c cs ih =>
    intro d n h
    by_cases hcyr : cyrUpper c = true
    · rw [airlineScan, if_pos hcyr] at h
      obtain ⟨hall, hn⟩ := ih h
      refine ⟨?_, ?_⟩
      · intro x hx
        rcases List.mem_cons.mp hx with rfl | hx
        · simp [airlineOk, hcyr]
        · exact hall x hx
      · rw [hn, digitCount_cons, if_neg (by simp [cyr_not_digit hcyr])]
        omega
    · by_cases hdig : isAsciiDigit c = true
      · rw [airlineScan, if_neg hcyr, if_pos hdig] at h
        obtain ⟨hall, hn⟩ := ih h
        refine ⟨?_, ?_⟩
        · intro x hx
          rcases List.mem_cons.mp hx with rfl | hx
          · simp [airlineOk, hdig]
          · exact hall x hx
        · rw [hn, digitCount_cons, if_pos hdig]
          omega
      · rw [airlineScan, if_neg hcyr, if_neg hdig] at h
        cases h

/-- Inversion of a failed airline loop: the error names the first
character that is neither a letter nor a digit. -/
theorem airlineScan_err :
    ∀ {s : List Char} {d : Nat} {e : AirlineCodeParseError},
      airlineScan s d = Except.error e →
      ∃ c pre post, e = AirlineCodeParseError.InvalidLetter c ∧
        s = pre ++ c :: post ∧ (∀ x ∈ pre, airlineOk x = true) ∧
        airlineOk c = false := by
  intro s
  induction s with
  | nil => intro d e h; rw [airlineScan] at h; cases h
  | cons a as ih =>
    intro d e h
    by_cases hcyr : cyrUpper a = true
    · rw [airlineScan, if_pos hcyr] at h
      obtain ⟨c, pre, post, he, heq, hpre, hc⟩ := ih h
      refine ⟨c, a :: pre, post, he, by rw [heq, List.cons_append], ?_, hc⟩
      intro x hx
      rcases List.mem_cons.mp hx with rfl | hx
      · simp [airlineOk, hcyr]
      · exact hpre x hx
    · by_cases hdig : isAsciiDigit a = true
      · rw [airlineScan, if_neg hcyr, if_pos hdig] at h
        obtain ⟨c, pre, post, he, heq, hpre, hc⟩ := ih h
        refine ⟨c, a :: pre, post, he, by rw [heq, List.cons_append], ?_, hc⟩
        intro x hx
        rcases List.mem_cons.mp hx with rfl | hx
        · simp [airlineOk, hdig]
        · exact hpre x hx
      · rw [airlineScan, if_neg hcyr, if_neg hdig] at h
        cases h
        exact ⟨a, [], as, rfl, rfl, by simp,
          by simp [airlineOk, hcyr, hdig]⟩

/-- Inversion of a successful aircraft parse. -/
theorem aircraft_from_str_ok_inv {s : List Char} {v : AircraftCode}
    (h : AircraftCode.from_str s = some (Except.ok v)) :
    s.length = 3 ∧ (∀ c ∈ s, aircraftOk c = true) ∧
      encodeAll s = some v.bytes := by
  obtain ⟨vb⟩ := v
  rw [AircraftCode.from_str] at h
  split at h
  · simp at h
  next hlen =>
    refine ⟨by omega, ?_⟩
    split at h
    · simp at h
    next hfr =>
      refine ⟨firstReject_eq_none.mp hfr, ?_⟩
      split at h
      next koi8str hen =>
        split at h
        · simp only [Option.some.injEq, Except.ok.injEq,
            AircraftCode.mk.injEq] at h
          rw [hen, h]
        · cases h
      · cases h

/-- A length-3 string of accepted characters parses as an aircraft
code whose bytes are its KOI8-R encoding. -/
theorem aircraft_from_str_mk {s : List Char} (hlen : s.length = 3)
    (hall : ∀ c ∈ s, aircraftOk c = true) :
    ∃ bs, encodeAll s = some bs ∧
      AircraftCode.from_str s = some (Except.ok ⟨bs⟩) := by
  obtain ⟨bs, hbs, hblen, _⟩ :=
    encodeAll_some (fun c hc => aircraftOk_mem_accepted (hall c hc))
  refine ⟨bs, hbs, ?_⟩
  rw [AircraftCode.from_str, if_neg (by omega),
    firstReject_eq_none.mpr hall, hbs]
  simp [hblen, hlen]

/-- Rust `AircraftCode::from_str` never panics. -/
theorem aircraft_total (s : List Char) :
    (AircraftCode.from_str s).isSome = true := by
  by_cases hlen : s.length = 3
  · cases hfr : firstReject aircraftOk s with
    | some c =>
      rw [AircraftCode.from_str, if_neg (by omega), hfr]
      rfl
    | none =>
      have hall := firstReject_eq_none.mp hfr
      obtain ⟨bs, hbs, hok⟩ := aircraft_from_str_mk hlen hall
      rw [hok]
      rfl
  · rw [AircraftCode.from_str, if_pos (by omega)]
    rfl

/-- Inversion of a successful airport parse. -/
theorem airport_from_str_ok_inv {s : List Char} {v : AirportCode}
    (h : AirportCode.from_str s = some (Except.ok v)) :
    s.length = 3 ∧ (∀ c ∈ s, airportOk c = true) ∧
      encodeAll s = some v.bytes := by
  obtain ⟨vb⟩ := v
  rw [AirportCode.from_str] at h
  split at h
  · simp at h
  next hlen =>
    refine ⟨by omega, ?_⟩
    split at h
    · simp at h
    next hfr =>
      refine ⟨firstReject_eq_none.mp hfr, ?_⟩
      split at h
      next koi8str hen =>
        split at h
        · simp only [Option.some.injEq, Except.ok.injEq,
            AirportCode.mk.injEq] at h
          rw [hen, h]
        · cases h
      · cases h

/-- A length-3 string of Cyrillic letters parses as an airport code
whose bytes are its KOI8-R encoding. -/
theorem airport_from_str_mk {s : List Char} (hlen : s.length = 3)
    (hall : ∀ c ∈ s, airportOk c = true) :
    ∃ bs, encodeAll s = some bs ∧
      AirportCode.from_str s = some (Except.ok ⟨bs⟩) := by
  obtain ⟨bs, hbs, hblen, _⟩ :=
    encodeAll_some (fun c hc => cyr_mem_accepted (hall c hc))
  refine ⟨bs, hbs, ?_⟩
  rw [AirportCode.from_str, if_neg (by omega),
    firstReject_eq_none.mpr hall, hbs]
  simp [hblen, hlen]

/-- Rust `AirportCode::from_str` never panics. -/
theorem airport_total (s : List Char) :
    (AirportCode.from_str s).isSome = true := by
  by_cases hlen : s.length = 3
  · cases hfr : firstReject airportOk s with
    | some c =>
      rw [AirportCode.from_str, if_neg (by omega), hfr]
      rfl
    | none =>
      have hall := firstReject_eq_none.mp hfr
      obtain ⟨bs, hbs, hok⟩ := airport_from_str_mk hlen hall
      rw [hok]
      rfl
  · rw [AirportCode.from_str, if_pos (by omega)]
    rfl

/-- Inversion of a successful city parse. -/
theorem city_from_str_ok_inv {s : List Char} {v : CityCode}
    (h : CityCode.from_str s = some (Except.ok v)) :
    s.length = 3 ∧ (∀ c ∈ s, cityOk c = true) ∧
      encodeAll s = some v.bytes := by
  obtain ⟨vb⟩ := v
  rw [CityCode.from_str] at h
  split at h
  · simp at h
  next hlen =>
    refine ⟨by omega, ?_⟩
    split at h
    · simp at h
    next hfr =>
      refine ⟨firstReject_eq_none.mp hfr, ?_⟩
      split at h
      next koi8str hen =>
        split at h
        · simp only [Option.some.injEq, Except.ok.injEq,
            CityCode.mk.injEq] at h
          rw [hen, h]
        · cases h
      · cases h

/-- A length-3 string of Cyrillic letters parses as a city code whose
bytes are its KOI8-R encoding. -/
theorem city_from_str_mk {s : List Char} (hlen : s.length = 3)
    (hall : ∀ c ∈ s, cityOk c = true) :
    ∃ bs, encodeAll s = some bs ∧
      CityCode.from_str s = some (Except.ok ⟨bs⟩) := by
  obtain ⟨bs, hbs, hblen, _⟩ :=
    encodeAll_some (fun c hc => cyr_mem_accepted (hall c hc))
  refine ⟨bs, hbs, ?_⟩
  rw [CityCode.from_str, if_neg (by omega),
    firstReject_eq_none.mpr hall, hbs]
  simp [hblen, hlen]

/-- Rust `CityCode::from_str` never panics. -/
theorem city_total (s : List Char) :
    (CityCode.from_str s).isSome = true := by
  by_cases hlen : s.length = 3
  · cases hfr : firstReject cityOk s with
    | some c =>
      rw [CityCode.from_str, if_neg (by omega), hfr]
      rfl
    | none =>
      have hall := firstReject_eq_none.mp hfr
      obtain ⟨bs, hbs, hok⟩ := city_from_str_mk hlen hall
      rw [hok]
      rfl
  · rw [CityCode.from_str, if_pos (by omega)]
    rfl

/-- Inversion of a successful airline parse. -/
theorem airline_from_str_ok_inv {s : List Char} {v : AirlineCode}
    (h : AirlineCode.from_str s = some (Except.ok v)) :
    s.length = 2 ∧ (∀ c ∈ s, airlineOk c = true) ∧ digitCount s ≤ 1 ∧
      encodeAll s = some v.bytes := by
  obtain ⟨vb⟩ := v
  rw [AirlineCode.from_str] at h
  split at h
  · simp at h
  next hlen =>
    refine ⟨by omega, ?_⟩
    split at h
    next e herr => simp at h
    next digits hscan =>
      obtain ⟨hall, hd⟩ := airlineScan_ok_inv hscan
      refine ⟨hall, ?_⟩
      split at h
      · simp at h
      next hgt =>
        have hdig : digitCount s ≤ 1 := by
          simp [digitCount] at hd ⊢
          omega
        refine ⟨hdig, ?_⟩
        split at h
        next koi8str hen =>
          split at h
          · simp only [Option.some.injEq, Except.ok.injEq,
              AirlineCode.mk.injEq] at h
            rw [hen, h]
          · cases h
        · cases h

/-- A length-2 string of accepted characters with at most one digit
parses as an airline code whose bytes are its KOI8-R encoding. -/
theorem airline_from_str_mk {s : List Char} (hlen : s.length = 2)
    (hall : ∀ c ∈ s, airlineOk c = true) (hdig : digitCount s ≤ 1) :
    ∃ bs, encodeAll s = some bs ∧
      AirlineCode.from_str s = some (Except.ok ⟨bs⟩) := by
  obtain ⟨bs, hbs, hblen, _⟩ :=
    encodeAll_some (fun c hc => airlineOk_mem_accepted (hall c hc))
  refine ⟨bs, hbs, ?_⟩
  rw [AirlineCode.from_str, if_neg (by omega), airlineScan_ok hall 0, hbs]
  simp only [Nat.zero_add]
  rw [if_neg (by omega), if_pos (by omega)]

/-- A length-2 string of accepted characters with more than one digit
is rejected with `TooManyDigits` carrying the digit count. -/
theorem airline_from_str_toomany {s : List Char} (hlen : s.length = 2)
    (hall : ∀ c ∈ s, airlineOk c = true) (hdig : 1 < digitCount s) :
    AirlineCode.from_str s =
      some (Except.error
        (AirlineCodeParseError.TooManyDigits (digitCount s))) := by
  rw [AirlineCode.from_str, if_neg (by omega), airlineScan_ok hall 0]
  simp only [Nat.zero_add]
  rw [if_pos (by omega)]

/-- Rust `AirlineCode::from_str` never panics. -/
theorem airline_total (s : List Char) :
    (AirlineCode.from_str s).isSome = true := by
  by_cases hlen : s.length = 2
  · cases hscan : airlineScan s 0 with
    | error e =>
      rw [AirlineCode.from_str, if_neg (by omega), hscan]
      rfl
    | ok digits =>
      obtain ⟨hall, hd⟩ := airlineScan_ok_inv hscan
      by_cases hgt : 1 < digitCount s
      · rw [airline_from_str_toomany hlen hall hgt]
        rfl
      · obtain ⟨bs, hbs, hok⟩ := airline_from_str_mk hlen hall (by omega)
        rw [hok]
        rfl
  · rw [AirlineCode.from_str, if_pos (by omega)]
    rfl

/-- Lexicographic byte comparison returns `eq` exactly on equal lists. -/
theorem lexNat_eq_iff : ∀ {as bs : List Nat},
    lexNat as bs = Ordering.eq ↔ as = bs := by
  intro as
  induction as with
  | nil => intro bs; cases bs <;> simp [lexNat]
  | cons a as ih =>
    intro bs
    cases bs with
    | nil => simp [lexNat]
    | cons b bs =>
      rw [lexNat]
      cases h : compare a b with
      | eq =>
        have hab : a = b := Nat.compare_eq_eq.mp h
        simp [ih, hab]
      | lt =>
        simp only [List.cons.injEq]
        constructor
        · intro hh; cases hh
        · rintro ⟨rfl, rfl⟩
          rw [Nat.compare_eq_eq.mpr rfl] at h
          cases h
      | gt =>
        simp only [List.cons.injEq]
        constructor
        · intro hh; cases hh
        · rintro ⟨rfl, rfl⟩
          rw [Nat.compare_eq_eq.mpr rfl] at h
          cases h

/-- Inversion of an aircraft `InvalidLetter` rejection: the reported
character is the first one failing the loop test. -/
theorem aircraft_invalid_letter_inv {s : List Char} {c : Char}
    (h : AircraftCode.from_str s =
      some (Except.error (AircraftCodeParseError.InvalidLetter c))) :
    ∃ pre post, s = pre ++ c :: post ∧ (∀ x ∈ pre, aircraftOk x = true) ∧
      aircraftOk c = false := by
  rw [AircraftCode.from_str] at h
  split at h
  · simp at h
  · split at h
    next c0 hfr =>
      simp only [Option.some.injEq, Except.error.injEq,
        AircraftCodeParseError.InvalidLetter.injEq] at h
      subst h
      exact firstReject_some_split hfr
    next hfr =>
      split at h
      next koi8str hen =>
        split at h
        · simp at h
        · cases h
      · cases h

/-- Inversion of an airport `InvalidLetter` rejection. -/
theorem airport_invalid_letter_inv {s : List Char} {c : Char}
    (h : AirportCode.from_str s =
      some (Except.error (AirportCodeParseError.InvalidLetter c))) :
    ∃ pre post, s = pre ++ c :: post ∧ (∀ x ∈ pre, airportOk x = true) ∧
      airportOk c = false := by
  rw [AirportCode.from_str] at h
  split at h
  · simp at h
  · split at h
    next c0 hfr =>
      simp only [Option.some.injEq, Except.error.injEq,
        AirportCodeParseError.InvalidLetter.injEq] at h
      subst h
      exact firstReject_some_split hfr
    next hfr =>
      split at h
      next koi8str hen =>
        split at h
        · simp at h
        · cases h
      · cases h

/-- Inversion of a city `InvalidLetter` rejection. -/
theorem city_invalid_letter_inv {s : List Char} {c : Char}
    (h : CityCode.from_str s =
      some (Except.error (CityCodeParseError.InvalidLetter c))) :
    ∃ pre post, s = pre ++ c :: post ∧ (∀ x ∈ pre, cityOk x = true) ∧
      cityOk c = false := by
  rw [CityCode.from_str] at h
  split at h
  · simp at h
  · split at h
    next c0 hfr =>
      simp only [Option.some.injEq, Except.error.injEq,
        CityCodeParseError.InvalidLetter.injEq] at h
      subst h
      exact firstReject_some_split hfr
    next hfr =>
      split at h
      next koi8str hen =>
        split at h
        · simp at h
        · cases h
      · cases h

/-- Inversion of an airline `InvalidLetter` rejection. -/
theorem airline_invalid_letter_inv {s : List Char} {c : Char}
    (h : AirlineCode.from_str s =
      some (Except.error (AirlineCodeParseError.InvalidLetter c))) :
    ∃ pre post, s = pre ++ c :: post ∧ (∀ x ∈ pre, airlineOk x = true) ∧
      airlineOk c = false := by
  rw [AirlineCode.from_str] at h
  split at h
  · simp at h
  · split at h
    next e hscan =>
      simp only [Option.some.injEq, Except.error.injEq] at h
      subst h
      obtain ⟨c0, pre, post, he, heq, hpre, hc0⟩ := airlineScan_err hscan
      cases he
      exact ⟨pre, post, heq, hpre, hc0⟩
    next digits hscan =>
      split at h
      · simp at h
      · split at h
        next koi8str hen =>
          split at h
          · simp at h
          · cases h
        · cases h

/-- C1: for every code kind (aircraft, airline, airport, city) and
every input text that `from_str` accepts, decoding the stored bytes
(`as_str`, also used by `Display`) yields a string character-for-
character identical to the input; no normalization, case-folding or
trimming happens anywhere. -/
theorem C1_round_trip :
    (∀ (s : List Char) (v : AircraftCode),
      AircraftCode.from_str s = some (Except.ok v) → v.as_str = s) ∧
    (∀ (s : List Char) (v : AirlineCode),
      AirlineCode.from_str s = some (Except.ok v) → v.as_str = s) ∧
    (∀ (s : List Char) (v : AirportCode),
      AirportCode.from_str s = some (Except.ok v) → v.as_str = s) ∧
    (∀ (s : List Char) (v : CityCode),
      CityCode.from_str s = some (Except.ok v) → v.as_str = s) := by
  refine ⟨?_, ?_, ?_, ?_⟩
  · intro s v h
    obtain ⟨_, hall, henc⟩ := aircraft_from_str_ok_inv h
    simp only [AircraftCode.as_str]
    exact (encodeAll_decode
      (fun c hc => aircraftOk_mem_accepted (hall c hc)) henc).1
  · intro s v h
    obtain ⟨_, hall, _, henc⟩ := airline_from_str_ok_inv h
    simp only [AirlineCode.as_str]
    exact (encodeAll_decode
      (fun c hc => airlineOk_mem_accepted (hall c hc)) henc).1
  · intro s v h
    obtain ⟨_, hall, henc⟩ := airport_from_str_ok_inv h
    simp only [AirportCode.as_str]
    exact (encodeAll_decode
      (fun c hc => cyr_mem_accepted (hall c hc)) henc).1
  · intro s v h
    obtain ⟨_, hall, henc⟩ := city_from_str_ok_inv h
    simp only [CityCode.as_str]
    exact (encodeAll_decode
      (fun c hc => cyr_mem_accepted (hall c hc)) henc).1

/-- Witness for C1 at the embedded test's input ПУ1: parsing succeeds
with KOI8-R bytes F0 F5 31 and decodes back to ПУ1. -/
theorem C1_round_trip_witness :
    AircraftCode.from_str ['П', 'У', '1'] =
      some (Except.ok ⟨[0xF0, 0xF5, 0x31]⟩) ∧
    (AircraftCode.mk [0xF0, 0xF5, 0x31]).as_str = ['П', 'У', '1'] :=
  ⟨rfl, C1_round_trip.1 ['П', 'У', '1'] ⟨[0xF0, 0xF5, 0x31]⟩ rfl⟩

/-- C2: the spec and claim say `InvalidLength` carries the observed
character count, but the code passes `value.len()`, the UTF-8 byte
length, while the guard itself counts characters: city-code input МО
(2 characters, 4 UTF-8 bytes) is rejected with `InvalidLength 4`, not
`InvalidLength 2`. -/
theorem C2_invalid_length_byte_count :
    CityCode.from_str ['М', 'О'] =
      some (Except.error (CityCodeParseError.InvalidLength 4)) ∧
    (['М', 'О'] : List Char).length = 2 ∧
    utf8Len ['М', 'О'] = 4 :=
  ⟨rfl, rfl, rfl⟩

/-- C5: a 2-character airline input made of accepted characters parses
successfully when it contains at most one ASCII digit and is rejected
with `TooManyDigits` carrying the count 2 when both characters are
digits. -/
theorem C5_airline_digit_rule : ∀ s : List Char, s.length = 2 →
    (∀ c ∈ s, (cyrUpper c || isAsciiDigit c) = true) →
    ((digitCount s ≤ 1 →
        ∃ v, AirlineCode.from_str s = some (Except.ok v)) ∧
     (digitCount s = 2 →
        AirlineCode.from_str s =
          some (Except.error (AirlineCodeParseError.TooManyDigits 2)))) := by
  intro s hlen hall
  constructor
  · intro hdig
    obtain ⟨bs, _, hok⟩ := airline_from_str_mk hlen hall hdig
    exact ⟨⟨bs⟩, hok⟩
  · intro hdig
    have := airline_from_str_toomany hlen hall (by omega)
    rw [hdig] at this
    exact this

/-- Witness for C5 at the spec's concrete scenarios: А5 (one letter,
one digit) parses; 56 (two digits) is rejected with TooManyDigits 2. -/
theorem C5_airline_digit_rule_witness :
    (['А', '5'] : List Char).length = 2 ∧ digitCount ['А', '5'] = 1 ∧
    (∃ v, AirlineCode.from_str ['А', '5'] = some (Except.ok v)) ∧
    (['5', '6'] : List Char).length = 2 ∧ digitCount ['5', '6'] = 2 ∧
    AirlineCode.from_str ['5', '6'] =
      some (Except.error (AirlineCodeParseError.TooManyDigits 2)) :=
  ⟨rfl, rfl,
   (C5_airline_digit_rule ['А', '5'] rfl (by decide)).1 (by decide),
   rfl, rfl,
   (C5_airline_digit_rule ['5', '6'] rfl (by decide)).2 rfl⟩

/-- C9: every parser is total on arbitrary input: it always returns a
value or a structured error and never reaches the panicking fixed-size
copy (`isSome` states that the `none` panic outcome of the model never
happens). -/
theorem C9_parser_total : ∀ s : List Char,
    (AircraftCode.from_str s).isSome = true ∧
    (AirlineCode.from_str s).isSome = true ∧
    (AirportCode.from_str s).isSome = true ∧
    (CityCode.from_str s).isSome = true :=
  fun s => ⟨aircraft_total s, airline_total s, airport_total s,
    city_total s⟩

/-- C10: the unchecked reconstructions of airline, airport and city
codes return a value whose `as_bytes` is exactly the input slice when
the slice has the kind's fixed length, and panic (`none`) on any other
length. -/
theorem C10_from_bytes_unchecked : ∀ b : List Nat,
    (b.length = 2 → ∃ v : AirlineCode,
      AirlineCode.from_bytes_unchecked b = some v ∧ v.as_bytes = b) ∧
    (b.length ≠ 2 → AirlineCode.from_bytes_unchecked b = none) ∧
    (b.length = 3 → ∃ v : AirportCode,
      AirportCode.from_bytes_unchecked b = some v ∧ v.as_bytes = b) ∧
    (b.length ≠ 3 → AirportCode.from_bytes_unchecked b = none) ∧
    (b.length = 3 → ∃ v : CityCode,
      CityCode.from_bytes_unchecked b = some v ∧ v.as_bytes = b) ∧
    (b.length ≠ 3 → CityCode.from_bytes_unchecked b = none) := by
  intro b
  refine ⟨fun h => ⟨⟨b⟩, ?_, rfl⟩, fun h => ?_, fun h => ⟨⟨b⟩, ?_, rfl⟩,
    fun h => ?_, fun h => ⟨⟨b⟩, ?_, rfl⟩, fun h => ?_⟩ <;>
  simp [AirlineCode.from_bytes_unchecked, AirportCode.from_bytes_unchecked,
    CityCode.from_bytes_unchecked, h]

/-- Witness for C10 at concrete slices of lengths 2 and 3. -/
theorem C10_from_bytes_unchecked_witness :
    (∃ v : AirlineCode, AirlineCode.from_bytes_unchecked [0xE1, 0xE2] =
      some v ∧ v.as_bytes = [0xE1, 0xE2]) ∧
    AirportCode.from_bytes_unchecked [0xE1, 0xE2] = none ∧
    CityCode.from_bytes_unchecked [0xE1, 0xE2] = none ∧
    (∃ v : AirportCode,
      AirportCode.from_bytes_unchecked [0xE1, 0xE2, 0xE3] = some v ∧
        v.as_bytes = [0xE1, 0xE2, 0xE3]) ∧
    (∃ v : CityCode,
      CityCode.from_bytes_unchecked [0xE1, 0xE2, 0xE3] = some v ∧
        v.as_bytes = [0xE1, 0xE2, 0xE3]) ∧
    AirlineCode.from_bytes_unchecked [0xE1, 0xE2, 0xE3] = none :=
  ⟨(C10_from_bytes_unchecked [0xE1, 0xE2]).1 rfl,
   (C10_from_bytes_unchecked [0xE1, 0xE2]).2.2.2.1 (by decide),
   (C10_from_bytes_unchecked [0xE1, 0xE2]).2.2.2.2.2 (by decide),
   (C10_from_bytes_unchecked [0xE1, 0xE2, 0xE3]).2.2.1 rfl,
   (C10_from_bytes_unchecked [0xE1, 0xE2, 0xE3]).2.2.2.2.1 rfl,
   (C10_from_bytes_unchecked [0xE1, 0xE2, 0xE3]).2.1 (by decide)⟩

/-- C3 counterexample: airport input АБ1 has every character in the
claimed letter-or-digit classes, yet the airport parser rejects it with
`InvalidLetter '1'` — the airport (and city) loops accept only the
Cyrillic range and treat digits as invalid. -/
theorem C3_counterexample :
    (['А', 'Б', '1'] : List Char).all
      (fun c => isAsciiDigit c || cyrUpper c) = true ∧
    AirportCode.from_str ['А', 'Б', '1'] =
      some (Except.error (AirportCodeParseError.InvalidLetter '1')) :=
  ⟨rfl, rfl⟩

/-- C3 amended: for a length-3 input, the aircraft parser succeeds iff
every character is an ASCII digit or a Cyrillic letter of the range and
reports `InvalidLetter` iff some character is neither; the airport and
city parsers succeed iff every character is a Cyrillic letter of the
range and report `InvalidLetter` iff some character (digits included)
is not. -/
theorem C3_classification : ∀ s : List Char, s.length = 3 →
    (((∀ c ∈ s, (isAsciiDigit c || cyrUpper c) = true) ↔
        ∃ v, AircraftCode.from_str s = some (Except.ok v)) ∧
     ((∃ c, AircraftCode.from_str s =
        some (Except.error (AircraftCodeParseError.InvalidLetter c))) ↔
        ¬ ∀ c ∈ s, (isAsciiDigit c || cyrUpper c) = true) ∧
     ((∀ c ∈ s, cyrUpper c = true) ↔
        ∃ v, AirportCode.from_str s = some (Except.ok v)) ∧
     ((∃ c, AirportCode.from_str s =
        some (Except.error (AirportCodeParseError.InvalidLetter c))) ↔
        ¬ ∀ c ∈ s, cyrUpper c = true) ∧
     ((∀ c ∈ s, cyrUpper c = true) ↔
        ∃ v, CityCode.from_str s = some (Except.ok v)) ∧
     ((∃ c, CityCode.from_str s =
        some (Except.error (CityCodeParseError.InvalidLetter c))) ↔
        ¬ ∀ c ∈ s, cyrUpper c = true)) := by
  intro s hlen
  refine ⟨⟨?_, ?_⟩, ⟨?_, ?_⟩, ⟨?_, ?_⟩, ⟨?_, ?_⟩, ⟨?_, ?_⟩, ⟨?_, ?_⟩⟩
  · intro hall
    obtain ⟨bs, _, hok⟩ := aircraft_from_str_mk hlen hall
    exact ⟨⟨bs⟩, hok⟩
  · rintro ⟨v, hv⟩
    exact (aircraft_from_str_ok_inv hv).2.1
  · rintro ⟨c, hc⟩ hall
    obtain ⟨bs, _, hok⟩ := aircraft_from_str_mk hlen hall
    rw [hok] at hc
    simp at hc
  · intro hnall
    cases hfr : firstReject aircraftOk s with
    | none => exact absurd (firstReject_eq_none.mp hfr) hnall
    | some c =>
      exact ⟨c, by rw [AircraftCode.from_str, if_neg (by omega), hfr]⟩
  · intro hall
    obtain ⟨bs, _, hok⟩ := airport_from_str_mk hlen hall
    exact ⟨⟨bs⟩, hok⟩
  · rintro ⟨v, hv⟩
    exact (airport_from_str_ok_inv hv).2.1
  · rintro ⟨c, hc⟩ hall
    obtain ⟨bs, _, hok⟩ := airport_from_str_mk hlen hall
    rw [hok] at hc
    simp at hc
  · intro hnall
    cases hfr : firstReject airportOk s with
    | none => exact absurd (firstReject_eq_none.mp hfr) hnall
    | some c =>
      exact ⟨c, by rw [AirportCode.from_str, if_neg (by omega), hfr]⟩
  · intro hall
    obtain ⟨bs, _, hok⟩ := city_from_str_mk hlen hall
    exact ⟨⟨bs⟩, hok⟩
  · rintro ⟨v, hv⟩
    exact (city_from_str_ok_inv hv).2.1
  · rintro ⟨c, hc⟩ hall
    obtain ⟨bs, _, hok⟩ := city_from_str_mk hlen hall
    rw [hok] at hc
    simp at hc
  · intro hnall
    cases hfr : firstReject cityOk s with
    | none => exact absurd (firstReject_eq_none.mp hfr) hnall
    | some c =>
      exact ⟨c, by rw [CityCode.from_str, if_neg (by omega), hfr]⟩

/-- Witness for the amended C3 at input ПУ1: the aircraft parser
accepts it and the airport and city parsers reject it with
`InvalidLetter`, matching the per-kind classifications. -/
theorem C3_classification_witness :
    (['П', 'У', '1'] : List Char).length = 3 ∧
    (((∀ c ∈ (['П', 'У', '1'] : List Char),
        (isAsciiDigit c || cyrUpper c) = true) ↔
        ∃ v, AircraftCode.from_str ['П', 'У', '1'] =
          some (Except.ok v)) ∧
     ((∃ c, AircraftCode.from_str ['П', 'У', '1'] =
        some (Except.error (AircraftCodeParseError.InvalidLetter c))) ↔
        ¬ ∀ c ∈ (['П', 'У', '1'] : List Char),
          (isAsciiDigit c || cyrUpper c) = true) ∧
     ((∀ c ∈ (['П', 'У', '1'] : List Char), cyrUpper c = true) ↔
        ∃ v, AirportCode.from_str ['П', 'У', '1'] =
          some (Except.ok v)) ∧
     ((∃ c, AirportCode.from_str ['П', 'У', '1'] =
        some (Except.error (AirportCodeParseError.InvalidLetter c))) ↔
        ¬ ∀ c ∈ (['П', 'У', '1'] : List Char), cyrUpper c = true) ∧
     ((∀ c ∈ (['П', 'У', '1'] : List Char), cyrUpper c = true) ↔
        ∃ v, CityCode.from_str ['П', 'У', '1'] =
          some (Except.ok v)) ∧
     ((∃ c, CityCode.from_str ['П', 'У', '1'] =
        some (Except.error (CityCodeParseError.InvalidLetter c))) ↔
        ¬ ∀ c ∈ (['П', 'У', '1'] : List Char), cyrUpper c = true)) :=
  ⟨rfl, C3_classification ['П', 'У', '1'] rfl⟩

/-- C4 counterexample: no duplicate-free 33-element list enumerates the
accepted letter range — the range `c >= 'А' && c <= 'Я'` holds exactly
32 characters (it misses Ё, U+0401). -/
theorem C4_counterexample :
    ¬ ∃ L : List Char, L.Nodup ∧ L.length = 33 ∧
      ∀ c : Char, c ∈ L ↔ cyrUpper c = true := by
  rintro ⟨L, hnd, hlen, hmem⟩
  have hsub : L ⊆ designatedLetters :=
    fun c hc => cyr_mem_designated ((hmem c).mp hc)
  have hle := (hnd.subperm hsub).length_le
  have h32 : designatedLetters.length = 32 := rfl
  omega

/-- C4 amended: for every code kind the set of non-digit characters
that validation accepts is the range А..Я, which contains exactly 32
distinct letters (`designatedLetters` enumerates it without
duplicates); Ё is outside the range. -/
theorem C4_designated_range :
    designatedLetters.Nodup ∧ designatedLetters.length = 32 ∧
    cyrUpper 'Ё' = false ∧
    (∀ c : Char, c ∈ designatedLetters ↔ cyrUpper c = true) ∧
    (∀ c : Char,
      (aircraftOk c = true ∧ isAsciiDigit c = false) ↔ cyrUpper c = true) ∧
    (∀ c : Char,
      (airlineOk c = true ∧ isAsciiDigit c = false) ↔ cyrUpper c = true) ∧
    (∀ c : Char,
      (airportOk c = true ∧ isAsciiDigit c = false) ↔ cyrUpper c = true) ∧
    (∀ c : Char,
      (cityOk c = true ∧ isAsciiDigit c = false) ↔ cyrUpper c = true) := by
  refine ⟨by decide, rfl, rfl, ?_, ?_, ?_, ?_, ?_⟩
  · intro c
    constructor
    · intro hc
      fin_cases hc <;> rfl
    · exact cyr_mem_designated
  · intro c
    constructor
    · rintro ⟨hok, hnd⟩
      rcases Bool.or_eq_true_iff.mp hok with h | h
      · rw [h] at hnd
        cases hnd
      · exact h
    · intro h
      exact ⟨Bool.or_eq_true_iff.mpr (Or.inr h), cyr_not_digit h⟩
  · intro c
    constructor
    · rintro ⟨hok, hnd⟩
      rcases Bool.or_eq_true_iff.mp hok with h | h
      · exact h
      · rw [h] at hnd
        cases hnd
    · intro h
      exact ⟨Bool.or_eq_true_iff.mpr (Or.inl h), cyr_not_digit h⟩
  · intro c
    exact ⟨fun h => h.1, fun h => ⟨h, cyr_not_digit h⟩⟩
  · intro c
    exact ⟨fun h => h.1, fun h => ⟨h, cyr_not_digit h⟩⟩

/-- C6 counterexample: the derived byte ordering disagrees with the
ordering of the decoded texts — ААА sorts before ЮЮЮ as text, but its
KOI8-R bytes E1 E1 E1 sort after E0 E0 E0. -/
theorem C6_counterexample :
    AirportCode.from_str ['А', 'А', 'А'] =
      some (Except.ok ⟨[0xE1, 0xE1, 0xE1]⟩) ∧
    AirportCode.from_str ['Ю', 'Ю', 'Ю'] =
      some (Except.ok ⟨[0xE0, 0xE0, 0xE0]⟩) ∧
    charsCompare ['А', 'А', 'А'] ['Ю', 'Ю', 'Ю'] = Ordering.lt ∧
    lexNat (AirportCode.mk [0xE1, 0xE1, 0xE1]).bytes
      (AirportCode.mk [0xE0, 0xE0, 0xE0]).bytes = Ordering.gt :=
  ⟨rfl, rfl, rfl, rfl⟩

/-- C6 amended: the byte-for-byte comparison agrees with comparing the
decoded texts on equality — the encoding is 1:1 on the accepted
character set — but the strict byte order follows the KOI8-R table
rather than the order of the decoded text. -/
theorem C6_ordering_eq_agreement :
    (∀ (t1 t2 : List Char) (v1 v2 : AircraftCode),
      AircraftCode.from_str t1 = some (Except.ok v1) →
      AircraftCode.from_str t2 = some (Except.ok v2) →
      (lexNat v1.bytes v2.bytes = Ordering.eq ↔ t1 = t2)) ∧
    (∀ (t1 t2 : List Char) (v1 v2 : AirlineCode),
      AirlineCode.from_str t1 = some (Except.ok v1) →
      AirlineCode.from_str t2 = some (Except.ok v2) →
      (lexNat v1.bytes v2.bytes = Ordering.eq ↔ t1 = t2)) ∧
    (∀ (t1 t2 : List Char) (v1 v2 : AirportCode),
      AirportCode.from_str t1 = some (Except.ok v1) →
      AirportCode.from_str t2 = some (Except.ok v2) →
      (lexNat v1.bytes v2.bytes = Ordering.eq ↔ t1 = t2)) ∧
    (∀ (t1 t2 : List Char) (v1 v2 : CityCode),
      CityCode.from_str t1 = some (Except.ok v1) →
      CityCode.from_str t2 = some (Except.ok v2) →
      (lexNat v1.bytes v2.bytes = Ordering.eq ↔ t1 = t2)) := by
  refine ⟨?_, ?_, ?_, ?_⟩
  · intro t1 t2 v1 v2 h1 h2
    obtain ⟨_, hall1, henc1⟩ := aircraft_from_str_ok_inv h1
    obtain ⟨_, hall2, henc2⟩ := aircraft_from_str_ok_inv h2
    have hd1 := (encodeAll_decode
      (fun c hc => aircraftOk_mem_accepted (hall1 c hc)) henc1).1
    have hd2 := (encodeAll_decode
      (fun c hc => aircraftOk_mem_accepted (hall2 c hc)) henc2).1
    rw [lexNat_eq_iff]
    constructor
    · intro hb
      rw [← hd1, ← hd2, hb]
    · intro ht
      subst ht
      rw [henc1] at henc2
      exact Option.some.inj henc2
  · intro t1 t2 v1 v2 h1 h2
    obtain ⟨_, hall1, _, henc1⟩ := airline_from_str_ok_inv h1
    obtain ⟨_, hall2, _, henc2⟩ := airline_from_str_ok_inv h2
    have hd1 := (encodeAll_decode
      (fun c hc => airlineOk_mem_accepted (hall1 c hc)) henc1).1
    have hd2 := (encodeAll_decode
      (fun c hc => airlineOk_mem_accepted (hall2 c hc)) henc2).1
    rw [lexNat_eq_iff]
    constructor
    · intro hb
      rw [← hd1, ← hd2, hb]
    · intro ht
      subst ht
      rw [henc1] at henc2
      exact Option.some.inj henc2
  · intro t1 t2 v1 v2 h1 h2
    obtain ⟨_, hall1, henc1⟩ := airport_from_str_ok_inv h1
    obtain ⟨_, hall2, henc2⟩ := airport_from_str_ok_inv h2
    have hd1 := (encodeAll_decode
      (fun c hc => cyr_mem_accepted (hall1 c hc)) henc1).1
    have hd2 := (encodeAll_decode
      (fun c hc => cyr_mem_accepted (hall2 c hc)) henc2).1
    rw [lexNat_eq_iff]
    constructor
    · intro hb
      rw [← hd1, ← hd2, hb]
    · intro ht
      subst ht
      rw [henc1] at henc2
      exact Option.some.inj henc2
  · intro t1 t2 v1 v2 h1 h2
    obtain ⟨_, hall1, henc1⟩ := city_from_str_ok_inv h1
    obtain ⟨_, hall2, henc2⟩ := city_from_str_ok_inv h2
    have hd1 := (encodeAll_decode
      (fun c hc => cyr_mem_accepted (hall1 c hc)) henc1).1
    have hd2 := (encodeAll_decode
      (fun c hc => cyr_mem_accepted (hall2 c hc)) henc2).1
    rw [lexNat_eq_iff]
    constructor
    · intro hb
      rw [← hd1, ← hd2, hb]
    · intro ht
      subst ht
      rw [henc1] at henc2
      exact Option.some.inj henc2

/-- Witness for the amended C6 at aircraft inputs ПУ1 and МОС. -/
theorem C6_ordering_eq_agreement_witness :
    AircraftCode.from_str ['П', 'У', '1'] =
      some (Except.ok ⟨[0xF0, 0xF5, 0x31]⟩) ∧
    AircraftCode.from_str ['М', 'О', 'С'] =
      some (Except.ok ⟨[0xED, 0xEF, 0xF3]⟩) ∧
    (lexNat (AircraftCode.mk [0xF0, 0xF5, 0x31]).bytes
        (AircraftCode.mk [0xED, 0xEF, 0xF3]).bytes = Ordering.eq ↔
      (['П', 'У', '1'] : List Char) = ['М', 'О', 'С']) :=
  ⟨rfl, rfl,
   C6_ordering_eq_agreement.1 ['П', 'У', '1'] ['М', 'О', 'С']
     ⟨[0xF0, 0xF5, 0x31]⟩ ⟨[0xED, 0xEF, 0xF3]⟩ rfl rfl⟩

/-- C7: for texts accepted by the same kind, the parsed values are
equal exactly when the texts are equal (the single-byte encoding is
injective on the accepted character set), and equal values hash
equally (the derived hash is a function of the stored bytes). -/
theorem C7_eq_hash_consistency :
    (∀ (t1 t2 : List Char) (v1 v2 : AircraftCode),
      AircraftCode.from_str t1 = some (Except.ok v1) →
      AircraftCode.from_str t2 = some (Except.ok v2) →
      ((v1 = v2 ↔ t1 = t2) ∧
       (v1 = v2 → hashBytes v1.bytes = hashBytes v2.bytes))) ∧
    (∀ (t1 t2 : List Char) (v1 v2 : AirlineCode),
      AirlineCode.from_str t1 = some (Except.ok v1) →
      AirlineCode.from_str t2 = some (Except.ok v2) →
      ((v1 = v2 ↔ t1 = t2) ∧
       (v1 = v2 → hashBytes v1.bytes = hashBytes v2.bytes))) ∧
    (∀ (t1 t2 : List Char) (v1 v2 : AirportCode),
      AirportCode.from_str t1 = some (Except.ok v1) →
      AirportCode.from_str t2 = some (Except.ok v2) →
      ((v1 = v2 ↔ t1 = t2) ∧
       (v1 = v2 → hashBytes v1.bytes = hashBytes v2.bytes))) ∧
    (∀ (t1 t2 : List Char) (v1 v2 : CityCode),
      CityCode.from_str t1 = some (Except.ok v1) →
      CityCode.from_str t2 = some (Except.ok v2) →
      ((v1 = v2 ↔ t1 = t2) ∧
       (v1 = v2 → hashBytes v1.bytes = hashBytes v2.bytes))) := by
  refine ⟨?_, ?_, ?_, ?_⟩
  · intro t1 t2 v1 v2 h1 h2
    refine ⟨?_, fun h => by rw [h]⟩
    constructor
    · intro hv
      obtain ⟨_, hall1, henc1⟩ := aircraft_from_str_ok_inv h1
      obtain ⟨_, hall2, henc2⟩ := aircraft_from_str_ok_inv h2
      have hd1 := (encodeAll_decode
        (fun c hc => aircraftOk_mem_accepted (hall1 c hc)) henc1).1
      have hd2 := (encodeAll_decode
        (fun c hc => aircraftOk_mem_accepted (hall2 c hc)) henc2).1
      rw [← hd1, ← hd2, hv]
    · intro ht
      subst ht
      rw [h1] at h2
      simp only [Option.some.injEq, Except.ok.injEq] at h2
      exact h2
  · intro t1 t2 v1 v2 h1 h2
    refine ⟨?_, fun h => by rw [h]⟩
    constructor
    · intro hv
      obtain ⟨_, hall1, _, henc1⟩ := airline_from_str_ok_inv h1
      obtain ⟨_, hall2, _, henc2⟩ := airline_from_str_ok_inv h2
      have hd1 := (encodeAll_decode
        (fun c hc => airlineOk_mem_accepted (hall1 c hc)) henc1).1
      have hd2 := (encodeAll_decode
        (fun c hc => airlineOk_mem_accepted (hall2 c hc)) henc2).1
      rw [← hd1, ← hd2, hv]
    · intro ht
      subst ht
      rw [h1] at h2
      simp only [Option.some.injEq, Except.ok.injEq] at h2
      exact h2
  · intro t1 t2 v1 v2 h1 h2
    refine ⟨?_, fun h => by rw [h]⟩
    constructor
    · intro hv
      obtain ⟨_, hall1, henc1⟩ := airport_from_str_ok_inv h1
      obtain ⟨_, hall2, henc2⟩ := airport_from_str_ok_inv h2
      have hd1 := (encodeAll_decode
        (fun c hc => cyr_mem_accepted (hall1 c hc)) henc1).1
      have hd2 := (encodeAll_decode
        (fun c hc => cyr_mem_accepted (hall2 c hc)) henc2).1
      rw [← hd1, ← hd2, hv]
    · intro ht
      subst ht
      rw [h1] at h2
      simp only [Option.some.injEq, Except.ok.injEq] at h2
      exact h2
  · intro t1 t2 v1 v2 h1 h2
    refine ⟨?_, fun h => by rw [h]⟩
    constructor
    · intro hv
      obtain ⟨_, hall1, henc1⟩ := city_from_str_ok_inv h1
      obtain ⟨_, hall2, henc2⟩ := city_from_str_ok_inv h2
      have hd1 := (encodeAll_decode
        (fun c hc => cyr_mem_accepted (hall1 c hc)) henc1).1
      have hd2 := (encodeAll_decode
        (fun c hc => cyr_mem_accepted (hall2 c hc)) henc2).1
      rw [← hd1, ← hd2, hv]
    · intro ht
      subst ht
      rw [h1] at h2
      simp only [Option.some.injEq, Except.ok.injEq] at h2
      exact h2

/-- Witness for C7 at city inputs МОС and СПТ. -/
theorem C7_eq_hash_consistency_witness :
    CityCode.from_str ['М', 'О', 'С'] =
      some (Except.ok ⟨[0xED, 0xEF, 0xF3]⟩) ∧
    CityCode.from_str ['С', 'П', 'Т'] =
      some (Except.ok ⟨[0xF3, 0xF0, 0xF4]⟩) ∧
    ((CityCode.mk [0xED, 0xEF, 0xF3] = CityCode.mk [0xF3, 0xF0, 0xF4] ↔
        (['М', 'О', 'С'] : List Char) = ['С', 'П', 'Т']) ∧
     (CityCode.mk [0xED, 0xEF, 0xF3] = CityCode.mk [0xF3, 0xF0, 0xF4] →
        hashBytes (CityCode.mk [0xED, 0xEF, 0xF3]).bytes =
          hashBytes (CityCode.mk [0xF3, 0xF0, 0xF4]).bytes)) :=
  ⟨rfl, rfl,
   C7_eq_hash_consistency.2.2.2 ['М', 'О', 'С'] ['С', 'П', 'Т']
     ⟨[0xED, 0xEF, 0xF3]⟩ ⟨[0xF3, 0xF0, 0xF4]⟩ rfl rfl⟩

/-- C8: whenever a parser rejects with `InvalidLetter c`, the string
splits as pre ++ c :: post where every character of pre passes that
kind's per-character test and c fails it — c is the first offender and
iteration stopped there. -/
theorem C8_first_offender :
    (∀ (s : List Char) (c : Char),
      AircraftCode.from_str s =
        some (Except.error (AircraftCodeParseError.InvalidLetter c)) →
      ∃ pre post, s = pre ++ c :: post ∧
        (∀ x ∈ pre, aircraftOk x = true) ∧ aircraftOk c = false) ∧
    (∀ (s : List Char) (c : Char),
      AirlineCode.from_str s =
        some (Except.error (AirlineCodeParseError.InvalidLetter c)) →
      ∃ pre post, s = pre ++ c :: post ∧
        (∀ x ∈ pre, airlineOk x = true) ∧ airlineOk c = false) ∧
    (∀ (s : List Char) (c : Char),
      AirportCode.from_str s =
        some (Except.error (AirportCodeParseError.InvalidLetter c)) →
      ∃ pre post, s = pre ++ c :: post ∧
        (∀ x ∈ pre, airportOk x = true) ∧ airportOk c = false) ∧
    (∀ (s : List Char) (c : Char),
      CityCode.from_str s =
        some (Except.error (CityCodeParseError.InvalidLetter c)) →
      ∃ pre post, s = pre ++ c :: post ∧
        (∀ x ∈ pre, cityOk x = true) ∧ cityOk c = false) :=
  ⟨fun _ _ h => aircraft_invalid_letter_inv h,
   fun _ _ h => airline_invalid_letter_inv h,
   fun _ _ h => airport_invalid_letter_inv h,
   fun _ _ h => city_invalid_letter_inv h⟩

/-- Witness for C8 at the spec's concrete scenario: Latin AAA is
rejected by the airport parser naming the first character A. -/
theorem C8_first_offender_witness :
    AirportCode.from_str ['A', 'A', 'A'] =
      some (Except.error (AirportCodeParseError.InvalidLetter 'A')) ∧
    (∃ pre post, (['A', 'A', 'A'] : List Char) = pre ++ 'A' :: post ∧
      (∀ x ∈ pre, airportOk x = true) ∧ airportOk 'A' = false) :=
  ⟨rfl, C8_first_offender.2.2.1 ['A', 'A', 'A'] 'A' rfl⟩

end Sirena
